import Mathlib

/-!
Verification development for the mcjoin multicast test utility
(`src/mcjoin.c`).  The definitions below are a shallow embedding of the
program's data model and operations: byte-level address stepping, the
group-registry expansion performed in `main`, the per-group status
history maintained by `update`, the spinner logic of `spin`, the tick
handler `plotter_show`, the run loop `loop` with its cooperative
signal-driven shutdown, the family classification pass, and option
processing for the `-p` flag.
-/

/-- `ntohl` applied to 4 bytes stored in network order: reads the bytes
as a big-endian 32-bit integer (the host value returned by `ntohl`). -/
def ntohl4 (bs : List Nat) : Nat :=
  bs.foldl (fun a b => a * 256 + b) 0

/-- `htonl` of a 32-bit host value: re-encodes it as 4 bytes in network
(big-endian) order. -/
def htonl4 (n : Nat) : List Nat :=
  [n / 2 ^ 24 % 256, n / 2 ^ 16 % 256, n / 2 ^ 8 % 256, n % 256]

/-- IPv4 address step from `main` (`mcjoin.c:533-535`):
`step = ntohl(sin->sin_addr.s_addr); step++;
sin->sin_addr.s_addr = htonl(step);` where `step` is a `uint32_t`, so
the increment wraps modulo `2^32`. -/
def step4 (bs : List Nat) : List Nat :=
  htonl4 ((ntohl4 bs + 1) % 2 ^ 32)

/-- IPv6 address step from `main` (`mcjoin.c:523-528`): copies bytes
12..15 of `s6_addr` into a `uint32_t`, performs
`step = htonl(ntohl(step) + 1)`, and copies the result back, leaving
bytes 0..11 untouched. -/
def step6 (bs : List Nat) : List Nat :=
  bs.take 12 ++ htonl4 ((ntohl4 (bs.drop 12) + 1) % 2 ^ 32)

/-- A resolved group address, tagged by family as in the program
(family inferred from the presence of a colon in the text; the binary
form lives in `sin_addr` / `sin6_addr`). Bytes are in network order. -/
inductive Addr where
  | v4 (bs : List Nat)
  | v6 (bs : List Nat)
deriving DecidableEq, Repr

/-- The "Next group ..." step of `main` (`mcjoin.c:521-540`), dispatched
on the address family. -/
def stepAddr : Addr → Addr
  | .v4 bs => .v4 (step4 bs)
  | .v6 bs => .v6 (step6 bs)

/-- Decimal text length of one octet as printed by `inet_ntop4`'s
`"%u.%u.%u.%u"`; the sources are `u_char`s (below 256), so at most three
digits. -/
def decLen (b : Nat) : Nat :=
  if b < 10 then 1 else if b < 100 then 2 else 3

/-- Text length (excluding the NUL) of `inet_ntop4`'s rendering
`"%u.%u.%u.%u"` of 4 bytes. -/
def renderLen4 (bs : List Nat) : Nat :=
  decLen (bs.getD 0 0) + decLen (bs.getD 1 0) + decLen (bs.getD 2 0)
    + decLen (bs.getD 3 0) + 3

/-- Hexadecimal text length of one 16-bit word as printed by
`inet_ntop6`'s `"%x"`. -/
def hexLen (w : Nat) : Nat :=
  if w < 16 then 1 else if w < 256 then 2 else if w < 4096 then 3 else 4

/-- The eight 16-bit words of an IPv6 address, as `inet_ntop6` builds
them from the 16 network-order bytes. -/
def words6 (bs : List Nat) : List Nat :=
  (List.range 8).map (fun i => bs.getD (2 * i) 0 * 256 + bs.getD (2 * i + 1) 0)

/-- Length of the maximal run of zero words beginning at index `i`. -/
def runLenAt (ws : List Nat) (i : Nat) : Nat :=
  ((ws.drop i).takeWhile (fun w => w == 0)).length

/-- `inet_ntop6`'s zero-run selection: the leftmost longest run of zero
words (a longer run strictly beats an earlier one), used for the `::`
shorthand only when its length is at least 2 (`best.len < 2` resets
`best.base` to none). -/
def bestRun (ws : List Nat) : Option (Nat × Nat) :=
  let cands := (List.range ws.length).filterMap (fun i =>
    if (i = 0 ∨ ws.getD (i - 1) 1 ≠ 0) ∧ ws.getD i 1 = 0 then some (i, runLenAt ws i)
    else none)
  match cands.foldl (fun acc c =>
      match acc with
      | none => some c
      | some b => if c.2 > b.2 then some c else some b) none with
  | some (i, l) => if 2 ≤ l then some (i, l) else none
  | none => none

/-- Character count produced by the rendering loop of the canonical
(BIND, shared by glibc/musl) `inet_ntop6` over word indices 0..7: inside
the best zero run only the opening colon of `::` is written; otherwise a
separating colon (when `i` is not 0) precedes either the
encapsulated-IPv4 dotted quad (which ends the loop) or the `"%x"` word;
a run ending at word 8 appends the closing colon of a trailing `::`. -/
def ntop6Loop (ws bs : List Nat) (base len : Nat) : List Nat → Nat
  | [] => if base + len = 8 then 1 else 0
  | i :: rest =>
      if base ≤ i ∧ i < base + len then
        (if i = base then 1 else 0) + ntop6Loop ws bs base len rest
      else if i = 6 ∧ base = 0 ∧ (len = 6 ∨ (len = 7 ∧ ws.getD 7 0 ≠ 1)
          ∨ (len = 5 ∧ ws.getD 5 0 = 65535)) then
        1 + renderLen4 (bs.drop 12) + (if base + len = 8 then 1 else 0)
      else
        (if i = 0 then 0 else 1) + hexLen (ws.getD i 0) + ntop6Loop ws bs base len rest

/-- Text length (excluding the NUL) of `inet_ntop`'s AF_INET6 rendering
of 16 bytes; when no run is selected (`best.base == -1`) the sentinel
base 9 makes the in-run, encapsulated-IPv4 and trailing-colon branches
unreachable, as in the C. -/
def ntop6Len (bs : List Nat) : Nat :=
  match bestRun (words6 bs) with
  | none => ntop6Loop (words6 bs) bs 9 0 (List.range 8)
  | some (base, len) => ntop6Loop (words6 bs) bs base len (List.range 8)

/-- Success condition of the unchecked `inet_ntop` calls at
`mcjoin.c:529,539`: POSIX `inet_ntop` fails with ENOSPC — writing
nothing to the destination — iff the rendered text including its NUL
exceeds the size argument, which `main` passes as
`len = sizeof(*sin) = 16` for IPv4 and `len = sizeof(*sin6) = 28` for
IPv6 (`mcjoin.c:529,536`); both reduce to text length < size. -/
def inet_ntop_ok : Addr → Bool
  | .v4 bs => decide (renderLen4 bs < 16)
  | .v6 bs => decide (ntop6Len bs < 28)

/-- The "Next group ..." tail of the expansion loop (`mcjoin.c:521-540`):
the binary address is stepped, then written back into `buf` by an
*unchecked* `inet_ntop` for the next iteration's `inet_pton`.  When
`inet_ntop` fails (IPv6 text not fitting the 28-byte size) the buffer
keeps its previous contents, so the next iteration re-parses and
re-registers the same address.  (With a source filter, a failure on the
very first step instead leaves the source text at the start of `buf`;
the C2 theorem scopes that corner out through its hypothesis.) -/
def nextGroup (a : Addr) : Addr :=
  if inet_ntop_ok (stepAddr a) then stepAddr a else a

/-- One entry of the `groups[]` registry as populated by the expansion
loop in `main` (`mcjoin.c:517-519`): the optional source filter and the
group address (the program stores the text; we store the parsed address,
which the text round-trips through `inet_ntop`/`inet_pton` — with the
`inet_ntop` failure mode embedded in `nextGroup`). -/
structure GroupRec where
  source : Option String
  group : Addr
deriving DecidableEq, Repr

/-- The inner expansion loop of `main` (`mcjoin.c:487-541`):
`for (j = 0; j < num && group_num < NELEMS(groups); j++)` appends the
address parsed from the current text to the registry and advances the
text via `nextGroup` (binary step plus unchecked `inet_ntop` write-back)
for the next iteration.  `max` stands for `NELEMS(groups)`
(= `MAX_NUM_GROUPS`, whose numeric value lives in the header that is not
part of `src/`). -/
def addSpecLoop (max : Nat) (src : Option String) : Nat → Addr → List GroupRec → List GroupRec
  | 0, _, reg => reg
  | n + 1, a, reg =>
      if reg.length < max then addSpecLoop max src n (nextGroup a) (reg ++ [⟨src, a⟩])
      else reg

/-- Expansion of one group specification (`mcjoin.c:482-541`): the
validation `if (num < 1 || (num + group_num) >= NELEMS(groups))` runs
before any registry mutation; on failure `main` returns `usage(1)` and
the registry is untouched (first component `false`), otherwise the inner
loop appends `num` records. -/
def addSpec (max : Nat) (reg : List GroupRec) (src : Option String) (a : Addr)
    (num : Int) : Bool × List GroupRec :=
  if num < 1 ∨ max ≤ num.toNat + reg.length then (false, reg)
  else (true, addSpecLoop max src num.toNat a reg)

/-- The argument loop of `main` (`mcjoin.c:462-542`) over all positional
group specifications: a failed validation exits the program with status
1 (`return usage(1)`) before the run loop is entered. -/
def processSpecs (max : Nat) :
    List (Option String × Addr × Int) → List GroupRec → Except Nat (List GroupRec)
  | [], reg => Except.ok reg
  | (src, a, num) :: rest, reg =>
      match addSpec max reg src a num with
      | (false, _) => Except.error 1
      | (true, reg2) => processSpecs max rest reg2

/-- The per-record body of `update` (`mcjoin.c:77-78`):
`memmove(g->status, &g->status[1], STATUS_HISTORY - 1);
g->status[STATUS_POS] = ' ';` over the full `status[STATUS_HISTORY]`
array, modelled as a list whose length is the array size.  The memmove
shifts bytes 1..len-1 down by one and leaves the last byte in place.
The header defining `STATUS_POS` is not part of `src/`; following the
spec ("newest entry logically at the tail", the slot the shift blanks),
`STATUS_POS = STATUS_HISTORY - 2`, the last slot of the visible window
(`status[STATUS_HISTORY - 1]` stays the NUL terminator). -/
def statusShift (s : List Char) : List Char :=
  (s.drop 1 ++ s.drop (s.length - 1)).set (s.length - 2) ' '

/-- A freshly initialised status array (`mcjoin.c:344-345` zeroes the
record, `mcjoin.c:583` does `memset(groups[i].status, ' ',
STATUS_HISTORY - 1)`): `hist - 1` blanks followed by the NUL byte. -/
def freshStatus (hist : Nat) : List Char :=
  List.replicate (hist - 1) ' ' ++ [Char.ofNat 0]

/-- Modelled from the spec: `mark(record, symbol)` "writes `symbol` into
the most-recent slot of `record.statusHistory`" — the writing side lives
in the sender/receiver code, which is not part of `src/`; the slot is
`STATUS_POS`, the one `update` blanks and `spin` reads. -/
def mark (c : Char) (s : List Char) : List Char :=
  s.set (s.length - 2) c

/-- One entry of `struct gr` as used by the code in `src/`: source
filter, group text, status history array, packet counter, gap counter
and spinner cursor. -/
structure Gr where
  source : Option String
  group : String
  status : List Char
  count : Nat
  gaps : Nat
  spin : Nat
deriving DecidableEq, Repr

/-- The spinner glyph cycle of `spin` (`mcjoin.c:84`): the four glyphs
pipe, slash, dash, backslash, whose `strlen` is 4. -/
def spinner : List Char := ['|', '/', '-', '\\']

/-- `spin` (`mcjoin.c:82-94`): returns `spinner[g->spin % num]` and
increments the cursor only when `g->status[STATUS_POS] == '.'`. -/
def spin (g : Gr) : Char × Gr :=
  (spinner.getD (g.spin % 4) ' ',
   if g.status.getD (g.status.length - 2) ' ' = '.' then { g with spin := g.spin + 1 }
   else g)

/-- `update` (`mcjoin.c:70-80`): applies the status shift to every
registered group. -/
def update (gs : List Gr) : List Gr :=
  gs.map (fun g => { g with status := statusShift g.status })

/-- `plotter_show` (`mcjoin.c:96-157`) restricted to its effect on the
group records: in old/plain mode it only calls `update()` (the
`progress()` dot is pure output); in fancy mode it calls `spin` on every
group while painting the rows, then `update()`.  The function does not
branch on sender/receiver mode. -/
def plotter_show (old : Bool) (gs : List Gr) : List Gr :=
  if old then update gs else update (gs.map (fun g => (spin g).2))

/-- `exit_loop` (`mcjoin.c:281-285`), the shared SIGINT/SIGHUP/SIGTERM
handler: every delivery performs `running = 0`.  `k` is the number of
deliveries within one observation interval; the handler does nothing
else, so `k ≥ 1` deliveries leave the flag cleared exactly as one
does. -/
def exit_loop (k : Nat) (running : Bool) : Bool :=
  if 0 < k then false else running

/-- The `while (!rc && running)` loop of `loop` (`mcjoin.c:258-265`) at
tick granularity.  Each plan entry is one iteration's inputs: the result
`u` returned by the `sender()`/`receiver()` unit of work (that code is
not part of `src/`; per the spec it performs one unit of work per group,
modelled by mapping `w` over every record — the body never reads
`running`, so signals delivered during the tick, counted by `k`, only
take effect at the next loop condition).  Returns
`(final rc, final running, completed iterations, final groups)`, or
`none` when the plan is exhausted while the loop would still run. -/
def loopTicks (w : Gr → Gr) :
    Int → Bool → List Gr → List (Int × Nat) → Option (Int × Bool × Nat × List Gr)
  | rc, running, gs, [] =>
      if rc = 0 ∧ running = true then none else some (rc, running, 0, gs)
  | rc, running, gs, (u, k) :: rest =>
      if rc = 0 ∧ running = true then
        (loopTicks w u (exit_loop k running) (gs.map w) rest).map
          (fun r => (r.1, r.2.1, r.2.2.1 + 1, r.2.2.2))
      else some (rc, running, 0, gs)

/-- `show_stats` (`mcjoin.c:159-178`): in join (receiver) mode prints a
per-group line (group text, received count, gaps) and a grand total;
in sender mode it prints nothing at all.  The printed data is modelled
as the list of per-group lines plus the optional total line. -/
def show_stats (join : Bool) (gs : List Gr) : List (String × Nat × Nat) × Option Nat :=
  if join then (gs.map (fun g => (g.group, g.count, g.gaps)), some ((gs.map Gr.count).sum))
  else ([], none)

/-- `loop` (`mcjoin.c:244-279`): `rc` starts as the
`sender_init()`/`receiver_init()` result, the while loop runs while
`!rc && running`, and `if (!rc) show_stats();` runs after it; the final
`rc` is returned (and propagated by `main` as the process exit
status). -/
def loop (join : Bool) (w : Gr → Gr) (initRc : Int) (gs : List Gr)
    (plan : List (Int × Nat)) :
    Option (Int × Bool × Nat × List Gr × (List (String × Nat × Nat) × Option Nat)) :=
  (loopTicks w initRc true gs plan).map
    (fun r => (r.1, r.2.1, r.2.2.1, r.2.2.2,
      if r.1 = 0 then show_stats join r.2.2.2 else ([], none)))

/-- The resolution loop of `main` (`mcjoin.c:544-576`): for every
registered group text, a record whose text contains a colon is resolved
as IPv6 (incrementing `need6`), otherwise as IPv4 (incrementing
`need4`); each resolved record's socket address carries
`htons(port)` (the `int` is narrowed to 16 bits).  Result:
`(resolved records, need4, need6)`. -/
def resolve (port : Int) : List String → List (String × Int) × Nat × Nat
  | [] => ([], 0, 0)
  | g :: rest =>
      let r := resolve port rest
      if g.data.contains ':' then ((g, port % 65536) :: r.1, r.2.1, r.2.2 + 1)
      else ((g, port % 65536) :: r.1, r.2.1 + 1, r.2.2)

/-- Command-line options relevant to the claims, as handled by the
`getopt` switch in `main` (`mcjoin.c:348-424`). -/
inductive CliOpt where
  | b (n : Int)
  | c (n : Int)
  | j
  | o
  | p (n : Int)
  | s
  | t (n : Int)
deriving DecidableEq, Repr

/-- The global configuration mutated by option parsing
(`mcjoin.c:42-55`). -/
structure Config where
  port : Int
  bytes : Int
  count : Int
  old : Nat
  join : Nat
  ttl : Int
deriving DecidableEq, Repr

/-- The option-processing loop of `main` (`mcjoin.c:348-424`) over the
modelled options.  `euid` is the `geteuid()` result, `bufsz` the `BUFSZ`
payload limit (from the header outside `src/`).  `-b` beyond the limit
exits with status 1; `-p` always stores the port and, when the port is
privileged and the user is not root, only logs
`ERROR("Must be root to use privileged ports (< 1024)")` and goes on
parsing; the remaining options just update fields. -/
def processOpts (euid : Nat) (bufsz : Int) :
    List CliOpt → Config → Except Nat (Config × List String)
  | [], cfg => .ok (cfg, [])
  | opt :: rest, cfg =>
      match opt with
      | .b n =>
          if bufsz < n then .error 1
          else processOpts euid bufsz rest { cfg with bytes := n }
      | .c n => processOpts euid bufsz rest { cfg with count := n }
      | .j => processOpts euid bufsz rest { cfg with join := cfg.join + 1 }
      | .o => processOpts euid bufsz rest { cfg with old := cfg.old + 1 }
      | .p n =>
          match processOpts euid bufsz rest { cfg with port := n } with
          | .error e => .error e
          | .ok (c2, msgs) =>
              .ok (c2, (if n < 1024 ∧ euid ≠ 0 then
                  ["Must be root to use privileged ports (< 1024)"] else []) ++ msgs)
      | .s => processOpts euid bufsz rest { cfg with join := 0 }
      | .t n => processOpts euid bufsz rest { cfg with ttl := n }

theorem ntohl4_htonl4 (n : Nat) (h : n < 2 ^ 32) : ntohl4 (htonl4 n) = n := by
  simp only [ntohl4, htonl4, List.foldl]
  omega

/-- C1: IPv4 stepping increments the address read as a big-endian
integer (mod 2^32); IPv6 stepping leaves bytes 0..11 unchanged and
increments the big-endian value of bytes 12..15 (mod 2^32); stepping
239.1.1.1 three times yields 239.1.1.2, 239.1.1.3, 239.1.1.4, and
stepping ff08::1 yields ff08::2. -/
theorem addr_step_c1 (bs4 : List Nat) (bs6 : List Nat) (h6 : bs6.length = 16) :
    ntohl4 (step4 bs4) = (ntohl4 bs4 + 1) % 2 ^ 32
    ∧ (step6 bs6).take 12 = bs6.take 12
    ∧ ntohl4 ((step6 bs6).drop 12) = (ntohl4 (bs6.drop 12) + 1) % 2 ^ 32
    ∧ step4 [239, 1, 1, 1] = [239, 1, 1, 2]
    ∧ step4 (step4 [239, 1, 1, 1]) = [239, 1, 1, 3]
    ∧ step4 (step4 (step4 [239, 1, 1, 1])) = [239, 1, 1, 4]
    ∧ step6 [0xff, 0x08, 0, 0, 0, 0, 0, 0, 0, 0, 0, 0, 0, 0, 0, 1]
        = [0xff, 0x08, 0, 0, 0, 0, 0, 0, 0, 0, 0, 0, 0, 0, 0, 2] := by
  have hmod : ∀ m : Nat, (m + 1) % 2 ^ 32 < 2 ^ 32 :=
    fun m => Nat.mod_lt _ (by norm_num)
  have hl : (bs6.take 12).length = 12 := by simp [h6]
  have htake : (step6 bs6).take 12 = bs6.take 12 := by
    have h2 := List.take_left (bs6.take 12) (htonl4 ((ntohl4 (bs6.drop 12) + 1) % 2 ^ 32))
    rw [hl] at h2
    rw [step6, h2]
  have hdrop : (step6 bs6).drop 12 = htonl4 ((ntohl4 (bs6.drop 12) + 1) % 2 ^ 32) := by
    have h2 := List.drop_left (bs6.take 12) (htonl4 ((ntohl4 (bs6.drop 12) + 1) % 2 ^ 32))
    rw [hl] at h2
    rw [step6, h2]
  refine ⟨?_, htake, ?_, by decide, by decide, by decide, by decide⟩
  · rw [step4, ntohl4_htonl4 _ (hmod _)]
  · rw [hdrop, ntohl4_htonl4 _ (hmod _)]

/-- Witness for `addr_step_c1` at concrete addresses. -/
theorem addr_step_c1_witness :
    ntohl4 (step4 [239, 1, 1, 1]) = (ntohl4 [239, 1, 1, 1] + 1) % 2 ^ 32
    ∧ (step6 [0xff, 0x08, 0, 0, 0, 0, 0, 0, 0, 0, 0, 0, 0, 0, 0, 1]).take 12
        = [0xff, 0x08, 0, 0, 0, 0, 0, 0, 0, 0, 0, 0, 0, 0, 0, 1].take 12 := by
  have h := addr_step_c1 [239, 1, 1, 1]
    [0xff, 0x08, 0, 0, 0, 0, 0, 0, 0, 0, 0, 0, 0, 0, 0, 1] (by decide)
  exact ⟨h.1, h.2.1⟩

theorem addSpecLoop_eq (max : Nat) (src : Option String) (n : Nat) :
    ∀ (a : Addr) (reg : List GroupRec), reg.length + n ≤ max →
      addSpecLoop max src n a reg
        = reg ++ (List.range n).map (fun j => ⟨src, nextGroup^[j] a⟩) := by
  induction n with
  | zero => intro a reg _; simp [addSpecLoop]
  | succ n ih =>
      intro a reg h
      rw [addSpecLoop, if_pos (by omega)]
      rw [ih (nextGroup a) (reg ++ [(⟨src, a⟩ : GroupRec)]) (by simp; omega)]
      rw [List.append_assoc]
      congr 1
      rw [List.range_succ_eq_map]
      simp [Function.iterate_succ_apply]

theorem decLen_le (b : Nat) : decLen b ≤ 3 := by
  unfold decLen
  split
  · omega
  · split <;> omega

theorem renderLen4_lt (bs : List Nat) : renderLen4 bs < 16 := by
  have h0 := decLen_le (bs.getD 0 0)
  have h1 := decLen_le (bs.getD 1 0)
  have h2 := decLen_le (bs.getD 2 0)
  have h3 := decLen_le (bs.getD 3 0)
  unfold renderLen4
  omega

theorem nextGroup_v4 (bs : List Nat) : nextGroup (Addr.v4 bs) = stepAddr (Addr.v4 bs) := by
  unfold nextGroup
  rw [if_pos]
  show inet_ntop_ok (stepAddr (Addr.v4 bs)) = true
  simp only [stepAddr, inet_ntop_ok]
  exact decide_eq_true (renderLen4_lt (step4 bs))

theorem nextGroup_v6_fits (bs : List Nat) (h : ntop6Len (step6 bs) < 28) :
    nextGroup (Addr.v6 bs) = stepAddr (Addr.v6 bs) := by
  unfold nextGroup
  rw [if_pos]
  show inet_ntop_ok (stepAddr (Addr.v6 bs)) = true
  simp only [stepAddr, inet_ntop_ok]
  exact decide_eq_true h

theorem nextGroup_v6_nofit (bs : List Nat) (h : 28 ≤ ntop6Len (step6 bs)) :
    nextGroup (Addr.v6 bs) = Addr.v6 bs := by
  unfold nextGroup
  rw [if_neg]
  simp only [stepAddr, inet_ntop_ok]
  simp only [decide_eq_true_eq]
  omega

/-- C2 counterexample: for the validated, source-less IPv6 specification
`ff08:1111:2222:3333:4444:5555:6666:7777+2` the stepped address renders
as 39 characters, so the unchecked `inet_ntop` at `mcjoin.c:529` fails
against the 28-byte size argument and leaves the text buffer unchanged;
the second record therefore repeats the literal address instead of
being its address step, refuting "each subsequent record at the address
obtained by applying the address step to the previous one". -/
theorem spec_expansion_c2_counterexample :
    (addSpec 2048 [] none (Addr.v6 [0xff, 0x08, 0x11, 0x11, 0x22, 0x22, 0x33, 0x33,
        0x44, 0x44, 0x55, 0x55, 0x66, 0x66, 0x77, 0x77]) 2).1 = true
    ∧ (addSpec 2048 [] none (Addr.v6 [0xff, 0x08, 0x11, 0x11, 0x22, 0x22, 0x33, 0x33,
        0x44, 0x44, 0x55, 0x55, 0x66, 0x66, 0x77, 0x77]) 2).2[1]?
        = some ⟨none, Addr.v6 [0xff, 0x08, 0x11, 0x11, 0x22, 0x22, 0x33, 0x33,
            0x44, 0x44, 0x55, 0x55, 0x66, 0x66, 0x77, 0x77]⟩
    ∧ stepAddr (Addr.v6 [0xff, 0x08, 0x11, 0x11, 0x22, 0x22, 0x33, 0x33,
        0x44, 0x44, 0x55, 0x55, 0x66, 0x66, 0x77, 0x77])
      ≠ Addr.v6 [0xff, 0x08, 0x11, 0x11, 0x22, 0x22, 0x33, 0x33,
        0x44, 0x44, 0x55, 0x55, 0x66, 0x66, 0x77, 0x77] := by
  decide

/-- C2 (amended): a validated specification with repeat count `num ≥ 1`
expands to exactly `num` records, the first at the literal address and
the `j`-th at the `j`-fold `nextGroup` of it, where `nextGroup` is the
address step followed by the unchecked `inet_ntop` write-back: the
stepped address when its text fits the size handed to `inet_ntop`
(always for IPv4; for IPv6 when the text is at most 27 characters), and
the previous address repeated otherwise.  A specification without a
`+N` suffix (parsed as `num = 1` by `mcjoin.c:465-471`) yields exactly
one record.  Scoped to specifications without a source filter or whose
first step renders successfully: otherwise the first failing `inet_ntop`
leaves the source text, not the group text, in the buffer. -/
theorem spec_expansion_c2_amended (max : Nat) (reg : List GroupRec)
    (src : Option String) (a : Addr) (num : Int) (h1 : 1 ≤ num)
    (h2 : num.toNat + reg.length < max)
    (hscope : src = none ∨ inet_ntop_ok (stepAddr a) = true) :
    (addSpec max reg src a num).1 = true
    ∧ (addSpec max reg src a num).2.length = reg.length + num.toNat
    ∧ (∀ j : Nat, j < num.toNat →
        (addSpec max reg src a num).2[reg.length + j]? = some ⟨src, nextGroup^[j] a⟩)
    ∧ (addSpec max reg src a num).2[reg.length]? = some ⟨src, a⟩
    ∧ (addSpec max reg src a 1).2.length = reg.length + 1
    ∧ (∀ bs : List Nat, nextGroup (Addr.v4 bs) = stepAddr (Addr.v4 bs))
    ∧ (∀ bs : List Nat, ntop6Len (step6 bs) < 28 →
        nextGroup (Addr.v6 bs) = stepAddr (Addr.v6 bs))
    ∧ (∀ bs : List Nat, 28 ≤ ntop6Len (step6 bs) →
        nextGroup (Addr.v6 bs) = Addr.v6 bs) := by
  have hc : ¬ (num < 1 ∨ max ≤ num.toNat + reg.length) := by omega
  have hc1 : ¬ ((1 : Int) < 1 ∨ max ≤ (1 : Int).toNat + reg.length) := by omega
  have hloop := addSpecLoop_eq max src num.toNat a reg (by omega)
  have hidx : ∀ j : Nat, j < num.toNat →
      (addSpec max reg src a num).2[reg.length + j]? = some ⟨src, nextGroup^[j] a⟩ := by
    intro j hj
    rw [addSpec, if_neg hc]
    simp only [hloop]
    rw [List.getElem?_append_right (by omega)]
    simp [hj]
  refine ⟨by rw [addSpec, if_neg hc], ?_, hidx, ?_, ?_, nextGroup_v4,
    nextGroup_v6_fits, nextGroup_v6_nofit⟩
  · rw [addSpec, if_neg hc]
    simp [hloop]
  · have := hidx 0 (by omega)
    simpa using this
  · rw [addSpec, if_neg hc1]
    have hl1 := addSpecLoop_eq max src 1 a reg (by omega)
    simp only [show (1 : Int).toNat = 1 from rfl]
    rw [hl1]
    simp

/-- Witness for `spec_expansion_c2_amended`: expanding `ff08::1+5` into
an empty registry succeeds with 5 records, the first at the literal,
and the short text keeps stepping normally. -/
theorem spec_expansion_c2_amended_witness :
    (addSpec 2048 [] none
        (Addr.v6 [0xff, 0x08, 0, 0, 0, 0, 0, 0, 0, 0, 0, 0, 0, 0, 0, 1]) 5).1 = true
    ∧ (addSpec 2048 [] none
        (Addr.v6 [0xff, 0x08, 0, 0, 0, 0, 0, 0, 0, 0, 0, 0, 0, 0, 0, 1]) 5).2.length
      = ([] : List GroupRec).length + (5 : Int).toNat
    ∧ (addSpec 2048 [] none
        (Addr.v6 [0xff, 0x08, 0, 0, 0, 0, 0, 0, 0, 0, 0, 0, 0, 0, 0, 1]) 5).2[
          ([] : List GroupRec).length]?
      = some ⟨none, Addr.v6 [0xff, 0x08, 0, 0, 0, 0, 0, 0, 0, 0, 0, 0, 0, 0, 0, 1]⟩
    ∧ nextGroup (Addr.v6 [0xff, 0x08, 0, 0, 0, 0, 0, 0, 0, 0, 0, 0, 0, 0, 0, 1])
      = stepAddr (Addr.v6 [0xff, 0x08, 0, 0, 0, 0, 0, 0, 0, 0, 0, 0, 0, 0, 0, 1]) := by
  have h := spec_expansion_c2_amended 2048 []  none
    (Addr.v6 [0xff, 0x08, 0, 0, 0, 0, 0, 0, 0, 0, 0, 0, 0, 0, 0, 1]) 5
    (by decide) (by decide) (Or.inl rfl)
  exact ⟨h.1, h.2.1, h.2.2.2.1,
    h.2.2.2.2.2.2.1 [0xff, 0x08, 0, 0, 0, 0, 0, 0, 0, 0, 0, 0, 0, 0, 0, 1] (by decide)⟩

/-- C3 counterexample: with an empty registry, requesting exactly
`max` groups (here `max = 2048`, i.e. count + registered = the fixed
maximum, which does not push *past* it) is rejected by the code, whereas
the claim predicts failure only when the total would exceed the
maximum. -/
theorem capacity_c3_counterexample :
    (addSpec 2048 [] none (Addr.v4 [239, 1, 1, 1]) 2048).1 = false
    ∧ ¬ ((2048 : Int) < 1 ∨ (2048 : Int).toNat + ([] : List GroupRec).length > 2048) := by
  constructor
  · rw [addSpec, if_pos (by decide)]
  · decide

/-- C3 (amended): expansion fails — the program reports an error and
exits with status 1 without entering the run loop — iff the repeat
count is less than 1 or adding the requested count to the groups already
registered would make the total reach or exceed the fixed maximum
(the effective capacity is `max − 1`); on such a failure the registry is
left unchanged, with no partial expansion retained. -/
theorem capacity_c3_amended (max : Nat) (reg : List GroupRec) (src : Option String)
    (a : Addr) (num : Int) (rest : List (Option String × Addr × Int)) :
    ((addSpec max reg src a num).1 = false ↔ (num < 1 ∨ max ≤ num.toNat + reg.length))
    ∧ ((addSpec max reg src a num).1 = false → (addSpec max reg src a num).2 = reg)
    ∧ ((num < 1 ∨ max ≤ num.toNat + reg.length) →
        processSpecs max ((src, a, num) :: rest) reg = Except.error 1) := by
  by_cases hc : num < 1 ∨ max ≤ num.toNat + reg.length
  · refine ⟨by simp [addSpec, if_pos hc, hc], ?_, ?_⟩
    · intro _; rw [addSpec, if_pos hc]
    · intro _
      rw [processSpecs]
      rw [show addSpec max reg src a num = (false, reg) from by rw [addSpec, if_pos hc]]
  · refine ⟨by simp [addSpec, if_neg hc, hc], ?_, fun h => absurd h hc⟩
    intro hfalse
    rw [addSpec, if_neg hc] at hfalse
    simp at hfalse

/-- Witness for `capacity_c3_amended`: a request for 0 groups is
rejected with exit code 1 and an unchanged registry. -/
theorem capacity_c3_amended_witness :
    processSpecs 2048 [(none, Addr.v4 [239, 1, 1, 1], 0)] [] = Except.error 1
    ∧ (addSpec 2048 [] none (Addr.v4 [239, 1, 1, 1]) 0).2 = [] := by
  have h := capacity_c3_amended 2048 [] none (Addr.v4 [239, 1, 1, 1]) 0 []
  exact ⟨h.2.2 (by decide), h.2.1 (h.1.mpr (by decide))⟩

theorem statusShift_length (s : List Char) : (statusShift s).length = s.length := by
  simp [statusShift]

theorem mark_length (c : Char) (s : List Char) : (mark c s).length = s.length := by
  simp [mark]

theorem statusShift_blank (s : List Char) (hlen : 2 ≤ s.length)
    (hb : ∀ i, i < s.length - 1 → s[i]? = some ' ') :
    ∀ i, i < s.length - 1 → (statusShift s)[i]? = some ' ' := by
  intro i hi
  unfold statusShift
  by_cases he : i = s.length - 2
  · subst he
    rw [List.getElem?_set_eq_of_lt ' ' (by simp; omega)]
  · rw [List.getElem?_set_ne (by omega)]
    rw [List.getElem?_append]
    rw [if_pos (by simp; omega)]
    rw [List.getElem?_drop]
    exact hb (1 + i) (by omega)

theorem statusShift_tail_blank (s : List Char) (hlen : 2 ≤ s.length) :
    (statusShift s)[s.length - 2]? = some ' ' := by
  unfold statusShift
  rw [List.getElem?_set_eq_of_lt ' ' (by simp; omega)]

theorem statusShift_iterate_blank (n : Nat) :
    ∀ s : List Char, 2 ≤ s.length → (∀ i, i < s.length - 1 → s[i]? = some ' ') →
      ∀ i, i < s.length - 1 → (statusShift^[n] s)[i]? = some ' ' := by
  induction n with
  | zero => intro s _ hb i hi; simpa using hb i hi
  | succ n ih =>
      intro s hlen hb i hi
      rw [Function.iterate_succ_apply]
      have h1 : 2 ≤ (statusShift s).length := by rw [statusShift_length]; exact hlen
      have h2 : ∀ j, j < (statusShift s).length - 1 → (statusShift s)[j]? = some ' ' := by
        intro j hj
        exact statusShift_blank s hlen hb j (by rwa [statusShift_length] at hj)
      have h3 : i < (statusShift s).length - 1 := by rwa [statusShift_length]
      exact ih (statusShift s) h1 h2 i h3

/-- C4: on a record whose visible status history is all-blank, any
number of advance (`update`) shifts leaves it all-blank; writing a
non-blank symbol into the most-recent slot (`mark`) and performing one
advance leaves the newest slot blank, so the symbol is no longer in the
active tail slot. -/
theorem history_shift_c4 (s : List Char) (c : Char) (n : Nat)
    (hlen : 2 ≤ s.length) (hblank : ∀ i, i < s.length - 1 → s[i]? = some ' ')
    (hc : c ≠ ' ') :
    (∀ i, i < s.length - 1 → (statusShift^[n] s)[i]? = some ' ')
    ∧ (mark c s)[s.length - 2]? = some c
    ∧ (statusShift (mark c s))[s.length - 2]? = some ' '
    ∧ (statusShift (mark c s))[s.length - 2]? ≠ some c := by
  have hmarklen : (mark c s).length = s.length := mark_length c s
  have htail : (statusShift (mark c s))[s.length - 2]? = some ' ' := by
    have := statusShift_tail_blank (mark c s) (by omega)
    rwa [hmarklen] at this
  refine ⟨statusShift_iterate_blank n s hlen hblank, ?_, htail, ?_⟩
  · unfold mark
    rw [List.getElem?_set_eq_of_lt c (by omega)]
  · rw [htail]
    intro hcon
    exact hc (Option.some.inj hcon).symm

/-- Witness for `history_shift_c4` on a fresh 4-byte status array with
the activity marker. -/
theorem history_shift_c4_witness :
    (statusShift (mark '.' (freshStatus 4)))[(freshStatus 4).length - 2]? = some ' '
    ∧ (mark '.' (freshStatus 4))[(freshStatus 4).length - 2]? = some '.' := by
  have h := history_shift_c4 (freshStatus 4) '.' 3 (by decide)
    (by decide) (by decide)
  exact ⟨h.2.2.1, h.2.1⟩

/-- C5 counterexample: a record whose most-recent status slot holds the
non-blank marker `'G'` does not advance the spinner cursor, contradicting
the claim that any non-blank marker advances it. -/
theorem spinner_c5_counterexample :
    (Gr.mk none "g" ['G', Char.ofNat 0] 0 0 0).status.getD
        ((Gr.mk none "g" ['G', Char.ofNat 0] 0 0 0).status.length - 2) ' ' ≠ ' '
    ∧ (spin (Gr.mk none "g" ['G', Char.ofNat 0] 0 0 0)).2.spin
        = (Gr.mk none "g" ['G', Char.ofNat 0] 0 0 0).spin := by
  decide

/-- C5 (amended): `spin` returns the glyph selected by the cursor modulo
the 4-glyph cycle, and advances the cursor by one if and only if the
most-recently written status slot (before the shift) holds the activity
marker `'.'`; for any other content — blank or not — the record is
unchanged. -/
theorem spinner_c5_amended (g : Gr) :
    (spin g).1 = spinner.getD (g.spin % 4) ' '
    ∧ ((spin g).2.spin = g.spin + 1 ↔ g.status.getD (g.status.length - 2) ' ' = '.')
    ∧ (g.status.getD (g.status.length - 2) ' ' ≠ '.' → (spin g).2 = g)
    ∧ (g.status.getD (g.status.length - 2) ' ' = ' ' → (spin g).2.spin = g.spin) := by
  by_cases h : g.status.getD (g.status.length - 2) ' ' = '.'
  · have hs : spin g = (spinner.getD (g.spin % 4) ' ', { g with spin := g.spin + 1 }) := by
      unfold spin
      rw [if_pos h]
    refine ⟨by rw [hs], ?_, fun hn => absurd h hn, fun hb => ?_⟩
    · rw [hs]
      exact ⟨fun _ => h, fun _ => rfl⟩
    · exact absurd (h.symm.trans hb) (by decide)
  · have hs : spin g = (spinner.getD (g.spin % 4) ' ', g) := by
      unfold spin
      rw [if_neg h]
    refine ⟨by rw [hs], ?_, fun _ => by rw [hs], fun _ => by rw [hs]⟩
    rw [hs]
    exact iff_of_false (fun hx => absurd (show g.spin = g.spin + 1 from hx) (by omega)) h

/-- Witness for `spinner_c5_amended`: a record with cursor 7 and an
activity dot in the newest slot advances to 8. -/
theorem spinner_c5_amended_witness :
    (spin (Gr.mk none "g" ['.', Char.ofNat 0] 0 0 7)).2.spin = 7 + 1 := by
  have h := spinner_c5_amended (Gr.mk none "g" ['.', Char.ofNat 0] 0 0 7)
  exact h.2.1.mpr (by decide)

theorem spin_status (g : Gr) : (spin g).2.status = g.status := by
  unfold spin
  split <;> rfl

theorem update_status_getElem? (gs : List Gr) (i : Nat) :
    (update gs)[i]?.map Gr.status = gs[i]?.map (fun g => statusShift g.status) := by
  rw [update, List.getElem?_map]
  cases gs[i]? <;> rfl

/-- C9: in both output modes the tick handler `plotter_show` applies the
status shift exactly once to every registered record (record `i`'s new
status is exactly `statusShift` of its old status, in old and fancy mode
alike, and the handler takes no sender/receiver branch), and every
record's status history keeps its length under the shift. -/
theorem advance_every_tick_c9 (old : Bool) (gs : List Gr) :
    (plotter_show old gs).length = gs.length
    ∧ (∀ i : Nat, (plotter_show old gs)[i]?.map Gr.status
        = gs[i]?.map (fun g => statusShift g.status))
    ∧ (∀ g : Gr, (statusShift g.status).length = g.status.length) := by
  refine ⟨?_, ?_, fun g => statusShift_length g.status⟩
  · cases old <;> simp [plotter_show, update]
  · intro i
    cases old with
    | true =>
        have hp : plotter_show true gs = update gs := by rw [plotter_show, if_pos rfl]
        rw [hp, update_status_getElem?]
    | false =>
        have hp : plotter_show false gs = update (gs.map (fun g => (spin g).2)) := by
          rw [plotter_show]
          rw [if_neg (by decide)]
        rw [hp, update_status_getElem?, List.getElem?_map]
        cases gs[i]? <;> simp [spin_status]

theorem exit_loop_min (k : Nat) (r : Bool) : exit_loop k r = exit_loop (min k 1) r := by
  rcases Nat.eq_zero_or_pos k with h0 | h1
  · subst h0; rfl
  · unfold exit_loop
    rw [if_pos h1, if_pos (by omega)]

theorem loopTicks_not_running (w : Gr → Gr) (rc : Int) (gs : List Gr)
    (rest : List (Int × Nat)) :
    loopTicks w rc false gs rest = some (rc, false, 0, gs) := by
  cases rest with
  | nil => simp [loopTicks]
  | cons p r => obtain ⟨u, k⟩ := p; simp [loopTicks]

theorem loopTicks_clamp (w : Gr → Gr) (plan : List (Int × Nat)) :
    ∀ (rc : Int) (running : Bool) (gs : List Gr),
      loopTicks w rc running gs plan
        = loopTicks w rc running gs (plan.map (fun p => (p.1, min p.2 1))) := by
  induction plan with
  | nil => intro rc running gs; rfl
  | cons p rest ih =>
      intro rc running gs
      obtain ⟨u, k⟩ := p
      by_cases hcond : rc = 0 ∧ running = true
      · rw [List.map_cons]
        show (if rc = 0 ∧ running = true then _ else _)
          = (if rc = 0 ∧ running = true then _ else _)
        rw [if_pos hcond, if_pos hcond]
        rw [← exit_loop_min k running]
        rw [ih u (exit_loop k running) (gs.map w)]
      · rw [List.map_cons]
        show (if rc = 0 ∧ running = true then _ else _)
          = (if rc = 0 ∧ running = true then _ else _)
        rw [if_neg hcond, if_neg hcond]

/-- C6: delivering `k ≥ 1` termination signals before the loop next
observes the run flag has the effect of delivering one (the handler only
clears the flag, so signal counts may be clamped to one without changing
the loop's behaviour); when `k ≥ 1` signals arrive during a tick, that
tick's unit of work still runs for every group, the run flag ends up
cleared, and the loop exits after completing exactly that one more
iteration. -/
theorem idempotent_stop_c6 (w : Gr → Gr) (rc : Int) (running : Bool)
    (gs : List Gr) (plan : List (Int × Nat)) (k : Nat) (rest : List (Int × Nat))
    (hk : 1 ≤ k) :
    (∀ r : Bool, exit_loop k r = exit_loop 1 r)
    ∧ loopTicks w rc running gs plan
        = loopTicks w rc running gs (plan.map (fun p => (p.1, min p.2 1)))
    ∧ loopTicks w 0 true gs ((0, k) :: rest) = some (0, false, 1, gs.map w) := by
  refine ⟨?_, loopTicks_clamp w plan rc running gs, ?_⟩
  · intro r
    unfold exit_loop
    rw [if_pos (by omega), if_pos (by omega)]
  · show (if (0 : Int) = 0 ∧ true = true then _ else _) = _
    rw [if_pos ⟨rfl, rfl⟩]
    have hex : exit_loop k true = false := by unfold exit_loop; rw [if_pos (by omega)]
    rw [hex, loopTicks_not_running w 0 (gs.map w) rest]
    rfl

/-- Witness for `idempotent_stop_c6`: three signals during the first
tick stop the loop after exactly one completed iteration. -/
theorem idempotent_stop_c6_witness :
    loopTicks (fun g => { g with count := g.count + 1 }) 0 true
        [Gr.mk none "239.1.1.1" [' ', Char.ofNat 0] 0 0 0] [(0, 3)]
      = some (0, false, 1,
          [Gr.mk none "239.1.1.1" [' ', Char.ofNat 0] 0 0 0].map
            (fun g => { g with count := g.count + 1 })) := by
  have h := idempotent_stop_c6 (fun g => { g with count := g.count + 1 }) 0 true
    [Gr.mk none "239.1.1.1" [' ', Char.ofNat 0] 0 0 0] [] 3 [] (by decide)
  exact h.2.2

theorem loopTicks_result (w : Gr → Gr) (plan : List (Int × Nat)) :
    ∀ (rc0 : Int) (running0 : Bool) (gs : List Gr) (rc : Int) (running : Bool)
      (n : Nat) (gs' : List Gr),
      loopTicks w rc0 running0 gs plan = some (rc, running, n, gs') →
      (rc = 0 → running = false) ∧ (rc ≠ 0 → rc = rc0 ∨ ∃ p ∈ plan, p.1 = rc) := by
  induction plan with
  | nil =>
      intro rc0 running0 gs rc running n gs' h
      rw [loopTicks] at h
      by_cases hcond : rc0 = 0 ∧ running0 = true
      · rw [if_pos hcond] at h; exact absurd h (by simp)
      · rw [if_neg hcond] at h
        obtain ⟨h1, h2, _, _⟩ := Prod.mk.injEq .. ▸ (Option.some.inj h)
        subst h1
        constructor
        · intro hz
          cases running0 with
          | false => simpa using h2.1.symm
          | true => exact absurd ⟨hz, rfl⟩ hcond
        · intro _; exact Or.inl rfl
  | cons p rest ih =>
      intro rc0 running0 gs rc running n gs' h
      obtain ⟨u, k⟩ := p
      rw [loopTicks] at h
      by_cases hcond : rc0 = 0 ∧ running0 = true
      · rw [if_pos hcond] at h
        rw [Option.map_eq_some'] at h
        obtain ⟨r, hr, hfr⟩ := h
        obtain ⟨r1, r2, r3, r4⟩ := r
        have hh := ih u (exit_loop k running0) (gs.map w) r1 r2 r3 r4 hr
        have he1 : rc = r1 := by
          have := congrArg Prod.fst hfr
          simpa using this.symm
        have he2 : running = r2 := by
          have := congrArg (fun x => x.2.1) hfr
          simpa using this.symm
        subst he1
        subst he2
        refine ⟨hh.1, fun hnz => ?_⟩
        rcases hh.2 hnz with hu | ⟨q, hq, hqe⟩
        · exact Or.inr ⟨(u, k), List.mem_cons_self _ _, hu.symm ▸ rfl⟩
        · exact Or.inr ⟨q, List.mem_cons_of_mem _ hq, hqe⟩
      · rw [if_neg hcond] at h
        obtain ⟨h1, h2, _, _⟩ := Prod.mk.injEq .. ▸ (Option.some.inj h)
        subst h1
        constructor
        · intro hz
          cases running0 with
          | false => simpa using h2.1.symm
          | true => exact absurd ⟨hz, rfl⟩ hcond
        · intro _; exact Or.inl rfl

/-- C7 counterexample: in sender mode (`join = 0`, set by `-s`) a run
that stops via the run flag returns 0 but prints no statistics at all
(`show_stats` is a no-op when `join` is 0), contradicting "statistics
are printed when and only when the loop result is 0". -/
theorem loop_result_c7_counterexample :
    loop false (fun g => g) 0 [Gr.mk none "239.1.1.1" [' ', Char.ofNat 0] 5 0 0] [(0, 1)]
      = some (0, false, 1, [Gr.mk none "239.1.1.1" [' ', Char.ofNat 0] 5 0 0],
          ([], none)) := by
  rfl

/-- C7 (amended): the run loop returns 0 only when it stopped with the
run flag cleared, and a nonzero result is always the result code of the
init step or of a send/receive unit of work; the statistics routine runs
when and only when the result is 0 — on a nonzero result nothing is
printed — but it produces output only in join (receiver) mode: in sender
mode no statistics are printed even on result 0. -/
theorem loop_result_c7_amended (join : Bool) (w : Gr → Gr) (initRc : Int)
    (gs : List Gr) (plan : List (Int × Nat)) (rc : Int) (running : Bool)
    (n : Nat) (gs' : List Gr) (stats : List (String × Nat × Nat) × Option Nat)
    (h : loop join w initRc gs plan = some (rc, running, n, gs', stats)) :
    (rc = 0 → running = false)
    ∧ (rc ≠ 0 → rc = initRc ∨ ∃ p ∈ plan, p.1 = rc)
    ∧ (rc = 0 → stats = show_stats join gs')
    ∧ (rc ≠ 0 → stats = ([], none))
    ∧ (join = false → stats = ([], none))
    ∧ (join = true → (stats.2.isSome ↔ rc = 0)) := by
  rw [loop, Option.map_eq_some'] at h
  obtain ⟨r, hr, hfr⟩ := h
  obtain ⟨r1, r2, r3, r4⟩ := r
  have hres := loopTicks_result w plan initRc true gs r1 r2 r3 r4 hr
  have e1 : rc = r1 := by
    have := congrArg Prod.fst hfr
    simpa using this.symm
  have e2 : running = r2 := by
    have := congrArg (fun x => x.2.1) hfr
    simpa using this.symm
  have e4 : gs' = r4 := by
    have := congrArg (fun x => x.2.2.2.1) hfr
    simpa using this.symm
  have e5 : stats = if r1 = 0 then show_stats join r4 else ([], none) := by
    have := congrArg (fun x => x.2.2.2.2) hfr
    simpa using this.symm
  subst e1
  subst e2
  subst e4
  refine ⟨hres.1, hres.2, ?_, ?_, ?_, ?_⟩
  · intro hz
    rw [e5, if_pos hz]
  · intro hnz
    rw [e5, if_neg hnz]
  · intro hj
    subst hj
    rw [e5]
    by_cases hz : rc = 0
    · rw [if_pos hz]
      rfl
    · rw [if_neg hz]
  · intro hj
    subst hj
    rw [e5]
    by_cases hz : rc = 0
    · rw [if_pos hz]
      simp [show_stats, hz]
    · rw [if_neg hz]
      simp [hz]

/-- Witness for `loop_result_c7_amended`: a receiver-mode run stopped by
a signal returns 0 and prints the per-group lines and the total. -/
theorem loop_result_c7_amended_witness :
    ([(("239.1.1.1", 4, 1) : String × Nat × Nat)], some 4)
      = show_stats true [Gr.mk none "239.1.1.1" [' ', Char.ofNat 0] 4 1 0] := by
  have h := loop_result_c7_amended true (fun g => g) 0
    [Gr.mk none "239.1.1.1" [' ', Char.ofNat 0] 4 1 0] [(0, 1)] 0 false 1
    [Gr.mk none "239.1.1.1" [' ', Char.ofNat 0] 4 1 0]
    ([("239.1.1.1", 4, 1)], some 4) (by rfl)
  exact h.2.2.1 rfl

theorem resolve_counts (port : Int) (gs : List String) :
    (resolve port gs).2.1 = (gs.filter (fun g => !(g.data.contains ':'))).length
    ∧ (resolve port gs).2.2 = (gs.filter (fun g => g.data.contains ':')).length := by
  induction gs with
  | nil => exact ⟨rfl, rfl⟩
  | cons g rest ih =>
      by_cases hc : ':' ∈ g.data
      · refine ⟨?_, ?_⟩ <;> simp [resolve, List.filter_cons, hc, ih.1, ih.2]
      · refine ⟨?_, ?_⟩ <;> simp [resolve, List.filter_cons, hc, ih.1, ih.2]

/-- C8: after the resolution pass, `need4` equals the number of
registered records whose group text has no colon and `need6` the number
of those with a colon; for the mixed specs `239.1.1.1` and `ff08::1`
exactly one IPv4-needed and one IPv6-needed indication is set. -/
theorem family_classification_c8 (port : Int) (gs : List String) :
    (resolve port gs).2.1 = (gs.filter (fun g => !(g.data.contains ':'))).length
    ∧ (resolve port gs).2.2 = (gs.filter (fun g => g.data.contains ':')).length
    ∧ (resolve port ["239.1.1.1", "ff08::1"]).2.1 = 1
    ∧ (resolve port ["239.1.1.1", "ff08::1"]).2.2 = 1 := by
  refine ⟨(resolve_counts port gs).1, (resolve_counts port gs).2, ?_, ?_⟩
  · rw [(resolve_counts port ["239.1.1.1", "ff08::1"]).1]
    decide
  · rw [(resolve_counts port ["239.1.1.1", "ff08::1"]).2]
    decide

/-- C10: with `-p PORT` for a privileged port (below 1024) and a
non-root effective uid, option processing logs the error message, does
not exit (no nonzero exit for this condition: processing continues with
the remaining options, and an option list ending there yields `.ok`),
the stored port is the given one, and resolution stamps exactly that
port into every resolved record. -/
theorem port_option_c10 (euid : Nat) (bufsz np : Int) (rest : List CliOpt)
    (cfg : Config) (gtext : String) (he : euid ≠ 0) (hn : np < 1024) (h0 : 0 ≤ np) :
    processOpts euid bufsz (CliOpt.p np :: rest) cfg
      = (match processOpts euid bufsz rest { cfg with port := np } with
         | .error e => .error e
         | .ok (c2, msgs) =>
             .ok (c2, "Must be root to use privileged ports (< 1024)" :: msgs))
    ∧ processOpts euid bufsz [CliOpt.p np] cfg
        = .ok ({ cfg with port := np },
            ["Must be root to use privileged ports (< 1024)"])
    ∧ (resolve np [gtext]).1 = [(gtext, np)] := by
  have hmsg : (if np < 1024 ∧ euid ≠ 0 then
      ["Must be root to use privileged ports (< 1024)"] else []) =
      ["Must be root to use privileged ports (< 1024)"] := if_pos ⟨hn, he⟩
  have hmod : np % 65536 = np := by omega
  refine ⟨?_, ?_, ?_⟩
  · simp only [processOpts]
    cases hpr : processOpts euid bufsz rest { cfg with port := np } with
    | error e => rfl
    | ok v =>
        obtain ⟨c2, msgs⟩ := v
        rw [hmsg]
        rfl
  · simp only [processOpts]
    rw [hmsg]
    rfl
  · simp only [resolve, hmod]
    split <;> rfl

/-- Witness for `port_option_c10`: `-p 80` as a non-root user stores
port 80, logs the message, and exits with success. -/
theorem port_option_c10_witness :
    processOpts 1000 1500 [CliOpt.p 80] (Config.mk 1234 100 0 0 1 1)
      = .ok ({ Config.mk 1234 100 0 0 1 1 with port := 80 },
          ["Must be root to use privileged ports (< 1024)"]) := by
  have h := port_option_c10 1000 1500 80 [] (Config.mk 1234 100 0 0 1 1) "239.1.1.1"
    (by decide) (by decide) (by decide)
  exact h.2.1
